import Mathlib

/-
Shallow embedding of the Habit-Flow client data layer.

Sources embedded here:
  * src/types/habit.ts            — the record types (Habit, SleepEntry, CalendarTask, Note)
  * src/hooks/useHabits.ts        — the localStorage-backed hook (namespace UseHabits)
  * src/hooks/useHabitsDb.ts      — the remote-backed sync hook (namespace UseHabitsDb)
  * the SQL schema migration      — table shapes and constraints (namespace Schema)
  * the Dashboard page            — derived metrics (completionRate, calculateStreak)

Modelling conventions:
  * JavaScript `number` becomes ℚ (sleep hours); Date timestamps become ℤ.
  * Each hook's mutation is a pure state transition on the hook's four local
    collections.  The remote-backed hook additionally takes the authenticated
    user (an `Option`), the outcome of its single remote round trip (a `Bool`,
    or an `Option row` for inserts that return the created row), and reports
    the number of remote requests it issued, so that "no remote call was made"
    is expressible.
  * `Partial<...>` update objects become structures of `Option` fields; the
    JS object spread `{...h, ...updates}` becomes `Option.getD` per field.
-/

/-- src/types/habit.ts: `Habit`.  `completedDays` is the list of "YYYY-MM-DD"
date strings on which the habit was marked done. -/
structure Habit where
  id : String
  name : String
  color : String
  createdAt : Int
  completedDays : List String
deriving Repr, DecidableEq

/-- src/types/habit.ts: `SleepEntry`. -/
structure SleepEntry where
  date : String
  hours : Rat
deriving Repr, DecidableEq

/-- src/types/habit.ts: `CalendarTask`. -/
structure CalendarTask where
  id : String
  title : String
  date : String
  completed : Bool
  color : Option String
deriving Repr, DecidableEq

/-- src/types/habit.ts: `Note`. -/
structure Note where
  id : String
  content : String
  date : String
  createdAt : Int
deriving Repr, DecidableEq

/-- The four local collections held by either hook
(`habits`, `sleepEntries`, `tasks`, `notes` useState cells). -/
structure HookState where
  habits : List Habit
  sleepEntries : List SleepEntry
  tasks : List CalendarTask
  notes : List Note
deriving Repr, DecidableEq

/-- The TypeScript argument type `Partial<Omit<Habit, 'id' | 'createdAt'>>` of
`updateHabit` in both hooks: any subset of `{name, color, completedDays}` may be
supplied (`none` = the key is absent from the object). -/
structure HabitUpdates where
  name : Option String := none
  color : Option String := none
  completedDays : Option (List String) := none
deriving Repr, DecidableEq

/-- The JS spread `{...habit, ...updates}` for a `HabitUpdates` object:
fields present in `updates` override, `id` and `createdAt` are not in the
update type and therefore survive. -/
def applyHabitUpdates (h : Habit) (u : HabitUpdates) : Habit :=
  { h with
    name := u.name.getD h.name
    color := u.color.getD h.color
    completedDays := u.completedDays.getD h.completedDays }

/-- The TypeScript argument type `Partial<Omit<CalendarTask, 'id'>>` of
`updateTask` in both hooks. -/
structure TaskUpdates where
  title : Option String := none
  date : Option String := none
  completed : Option Bool := none
  color : Option (Option String) := none
deriving Repr, DecidableEq

/-- The JS spread `{...task, ...updates}` for a `TaskUpdates` object. -/
def applyTaskUpdates (t : CalendarTask) (u : TaskUpdates) : CalendarTask :=
  { t with
    title := u.title.getD t.title
    date := u.date.getD t.date
    completed := u.completed.getD t.completed
    color := u.color.getD t.color }

/-- The updater callback both hooks pass to `setSleepEntries`: replace the
entry found by `findIndex(e => e.date === date)` in place, or append a new
entry when no entry for the date exists.  (The callback is textually identical
in useHabits.ts and useHabitsDb.ts.) -/
def sleepPatch (date : String) (hours : Rat) (l : List SleepEntry) :
    List SleepEntry :=
  match l.findIdx? (fun e => e.date == date) with
  | some i => l.set i { date := date, hours := hours }
  | none => l ++ [{ date := date, hours := hours }]

namespace Schema

/-- The CHECK constraint on `sleep_entries.hours` in the schema migration:
`CHECK (hours >= 0 AND hours <= 24)`.  The store accepts a sleep upsert only
when this holds. -/
def sleepHoursCheck (hours : Rat) : Bool :=
  decide (0 ≤ hours) && decide (hours ≤ 24)

end Schema

namespace UseHabits

/-- useHabits.ts `addHabit`: builds a new habit (`crypto.randomUUID()` and
`new Date()` are modelled as the `id` / `createdAt` parameters) and appends it. -/
def addHabit (id : String) (createdAt : Int) (name color : String)
    (s : HookState) : HookState :=
  { s with habits := s.habits ++
      [{ id := id, name := name, color := color, createdAt := createdAt,
         completedDays := [] }] }

/-- useHabits.ts `updateHabit`: maps `{...habit, ...updates}` over the habit
with the given id. -/
def updateHabit (id : String) (u : HabitUpdates) (s : HookState) : HookState :=
  { s with habits :=
      s.habits.map (fun h => if h.id == id then applyHabitUpdates h u else h) }

/-- useHabits.ts `deleteHabit`. -/
def deleteHabit (id : String) (s : HookState) : HookState :=
  { s with habits := s.habits.filter (fun h => h.id != id) }

/-- useHabits.ts `toggleHabitDay`: inside the map, each habit with the given id
checks its own `completedDays.includes(date)` and either filters the date out
or appends it. -/
def toggleHabitDay (habitId date : String) (s : HookState) : HookState :=
  { s with habits := s.habits.map (fun h =>
      if h.id == habitId then
        if h.completedDays.contains date then
          { h with completedDays := h.completedDays.filter (fun d => d != date) }
        else
          { h with completedDays := h.completedDays ++ [date] }
      else h) }

/-- useHabits.ts `addSleepEntry`: `findIndex` on the date, replace in place if
found, append otherwise. -/
def addSleepEntry (date : String) (hours : Rat) (s : HookState) : HookState :=
  { s with sleepEntries := sleepPatch date hours s.sleepEntries }

/-- useHabits.ts `addTask`: appends a task with `completed: false`. -/
def addTask (id : String) (title date : String) (color : Option String)
    (s : HookState) : HookState :=
  { s with tasks := s.tasks ++
      [{ id := id, title := title, date := date, completed := false,
         color := color }] }

/-- useHabits.ts `updateTask`. -/
def updateTask (id : String) (u : TaskUpdates) (s : HookState) : HookState :=
  { s with tasks :=
      s.tasks.map (fun t => if t.id == id then applyTaskUpdates t u else t) }

/-- useHabits.ts `deleteTask`. -/
def deleteTask (id : String) (s : HookState) : HookState :=
  { s with tasks := s.tasks.filter (fun t => t.id != id) }

/-- useHabits.ts `addNote`: builds the new note and **appends** it
(`setNotes((prev) => [...prev, newNote])`). -/
def addNote (id : String) (createdAt : Int) (content date : String)
    (s : HookState) : HookState :=
  { s with notes := s.notes ++
      [{ id := id, content := content, date := date, createdAt := createdAt }] }

/-- useHabits.ts `updateNote`: replaces the content of the note with the id. -/
def updateNote (id : String) (content : String) (s : HookState) : HookState :=
  { s with notes :=
      s.notes.map (fun n => if n.id == id then { n with content := content } else n) }

/-- useHabits.ts `deleteNote`. -/
def deleteNote (id : String) (s : HookState) : HookState :=
  { s with notes := s.notes.filter (fun n => n.id != id) }

end UseHabits

namespace UseHabitsDb

/-- A row of the remote `habits` table. -/
structure HabitRow where
  id : String
  userId : String
  name : String
  color : String
  createdAt : Int
deriving Repr, DecidableEq

/-- A row of the remote `habit_completions` table (the surrogate `id` column is
irrelevant to the hook and omitted). -/
structure CompletionRow where
  habitId : String
  userId : String
  date : String
deriving Repr, DecidableEq

/-- A row of the remote `sleep_entries` table. -/
structure SleepRow where
  userId : String
  date : String
  hours : Rat
deriving Repr, DecidableEq

/-- A row of the remote `tasks` table. -/
structure TaskRow where
  id : String
  userId : String
  title : String
  date : String
  completed : Bool
  color : Option String
deriving Repr, DecidableEq

/-- A row of the remote `notes` table. -/
structure NoteRow where
  id : String
  userId : String
  content : String
  date : String
  createdAt : Int
deriving Repr, DecidableEq

/-- The remote store contents visible to `fetchData`.  Each list is taken in
the order the corresponding query returns it (habits and tasks sorted by
`created_at` ascending, notes descending). -/
structure RemoteDb where
  habits : List HabitRow
  completions : List CompletionRow
  sleep : List SleepRow
  tasks : List TaskRow
  notes : List NoteRow
deriving Repr, DecidableEq

/-- useHabitsDb.ts `fetchData` (the load operation), modelled on its no-owner
branch and its all-fetches-succeed branch.  With no user all four collections
are set to empty and no request is issued; with a user the five per-user
queries run (habits, completions, sleep, tasks, notes — 5 requests) and the
completion dates are joined under their parent habit by
`completionsData.filter(c => c.habit_id === h.id).map(c => c.date)`.
On a fetch failure the previous state persists; that branch is not modelled.
The second component counts remote requests issued. -/
def fetchData (user : Option String) (db : RemoteDb) :
    HookState × Nat :=
  match user with
  | none => ({ habits := [], sleepEntries := [], tasks := [], notes := [] }, 0)
  | some uid =>
    let completionsData := db.completions.filter (fun c => c.userId == uid)
    (({ habits := (db.habits.filter (fun h => h.userId == uid)).map (fun h =>
          { id := h.id, name := h.name, color := h.color,
            createdAt := h.createdAt,
            completedDays :=
              (completionsData.filter (fun c => c.habitId == h.id)).map
                (fun c => c.date) })
        sleepEntries := (db.sleep.filter (fun r => r.userId == uid)).map
          (fun r => { date := r.date, hours := r.hours })
        tasks := (db.tasks.filter (fun t => t.userId == uid)).map (fun t =>
          { id := t.id, title := t.title, date := t.date,
            completed := t.completed, color := t.color })
        notes := (db.notes.filter (fun n => n.userId == uid)).map (fun n =>
          { id := n.id, content := n.content, date := n.date,
            createdAt := n.createdAt }) } : HookState), 5)

/-- useHabitsDb.ts `addHabit`: no-op without a user; otherwise one insert whose
outcome is `result` (`none` = rejected, `some row` = the created row).  On
success the new habit is appended with an empty completion set. -/
def addHabit (user : Option String) (result : Option HabitRow)
    (s : HookState) : HookState × Nat :=
  match user with
  | none => (s, 0)
  | some _ =>
    match result with
    | none => (s, 1)
    | some row =>
      ({ s with habits := s.habits ++
          [{ id := row.id, name := row.name, color := row.color,
             createdAt := row.createdAt, completedDays := [] }] }, 1)

/-- useHabitsDb.ts `updateHabit`: no-op without a user; one remote update
(name/color only are sent), and only on success is the local list patched with
the full `{...h, ...updates}` spread. -/
def updateHabit (user : Option String) (id : String) (u : HabitUpdates)
    (remoteOk : Bool) (s : HookState) : HookState × Nat :=
  match user with
  | none => (s, 0)
  | some _ =>
    if remoteOk then
      ({ s with habits :=
          s.habits.map (fun h => if h.id == id then applyHabitUpdates h u else h) },
       1)
    else (s, 1)

/-- useHabitsDb.ts `deleteHabit`. -/
def deleteHabit (user : Option String) (id : String) (remoteOk : Bool)
    (s : HookState) : HookState × Nat :=
  match user with
  | none => (s, 0)
  | some _ =>
    if remoteOk then
      ({ s with habits := s.habits.filter (fun h => h.id != id) }, 1)
    else (s, 1)

/-- useHabitsDb.ts `toggleHabitDay`: no-op without a user or when the habit id
is not found.  `isCompleted` is read from the **found** habit before the remote
call; one delete or insert is issued accordingly, and only on success does the
map patch every habit bearing `habitId` using that precomputed `isCompleted`. -/
def toggleHabitDay (user : Option String) (habitId date : String)
    (remoteOk : Bool) (s : HookState) : HookState × Nat :=
  match user with
  | none => (s, 0)
  | some _ =>
    match s.habits.find? (fun h => h.id == habitId) with
    | none => (s, 0)
    | some habit =>
      let isCompleted := habit.completedDays.contains date
      if remoteOk then
        ({ s with habits := s.habits.map (fun h =>
            if h.id == habitId then
              { h with completedDays :=
                  if isCompleted then
                    h.completedDays.filter (fun d => d != date)
                  else
                    h.completedDays ++ [date] }
            else h) }, 1)
      else (s, 1)

/-- useHabitsDb.ts `addSleepEntry`: one remote upsert keyed on (user, date);
on success the local list replaces the entry found by `findIndex` or appends. -/
def addSleepEntry (user : Option String) (date : String) (hours : Rat)
    (remoteOk : Bool) (s : HookState) : HookState × Nat :=
  match user with
  | none => (s, 0)
  | some _ =>
    if remoteOk then
      ({ s with sleepEntries := sleepPatch date hours s.sleepEntries }, 1)
    else (s, 1)

/-- useHabitsDb.ts `addTask`: insert returning the created row; appended on
success. -/
def addTask (user : Option String) (result : Option TaskRow)
    (s : HookState) : HookState × Nat :=
  match user with
  | none => (s, 0)
  | some _ =>
    match result with
    | none => (s, 1)
    | some row =>
      ({ s with tasks := s.tasks ++
          [{ id := row.id, title := row.title, date := row.date,
             completed := row.completed, color := row.color }] }, 1)

/-- useHabitsDb.ts `updateTask`. -/
def updateTask (user : Option String) (id : String) (u : TaskUpdates)
    (remoteOk : Bool) (s : HookState) : HookState × Nat :=
  match user with
  | none => (s, 0)
  | some _ =>
    if remoteOk then
      ({ s with tasks :=
          s.tasks.map (fun t => if t.id == id then applyTaskUpdates t u else t) },
       1)
    else (s, 1)

/-- useHabitsDb.ts `deleteTask`. -/
def deleteTask (user : Option String) (id : String) (remoteOk : Bool)
    (s : HookState) : HookState × Nat :=
  match user with
  | none => (s, 0)
  | some _ =>
    if remoteOk then
      ({ s with tasks := s.tasks.filter (fun t => t.id != id) }, 1)
    else (s, 1)

/-- useHabitsDb.ts `addNote`: insert returning the created row; on success the
new note is **prepended** (`setNotes(prev => [newNote, ...prev])`). -/
def addNote (user : Option String) (result : Option NoteRow)
    (s : HookState) : HookState × Nat :=
  match user with
  | none => (s, 0)
  | some _ =>
    match result with
    | none => (s, 1)
    | some row =>
      ({ s with notes :=
          { id := row.id, content := row.content, date := row.date,
            createdAt := row.createdAt } :: s.notes }, 1)

/-- useHabitsDb.ts `updateNote`. -/
def updateNote (user : Option String) (id : String) (content : String)
    (remoteOk : Bool) (s : HookState) : HookState × Nat :=
  match user with
  | none => (s, 0)
  | some _ =>
    if remoteOk then
      ({ s with notes :=
          s.notes.map (fun n => if n.id == id then { n with content := content } else n) },
       1)
    else (s, 1)

/-- useHabitsDb.ts `deleteNote`. -/
def deleteNote (user : Option String) (id : String) (remoteOk : Bool)
    (s : HookState) : HookState × Nat :=
  match user with
  | none => (s, 0)
  | some _ =>
    if remoteOk then
      ({ s with notes := s.notes.filter (fun n => n.id != id) }, 1)
    else (s, 1)

end UseHabitsDb

namespace Dashboard

/-- Dashboard: `habits.some(h => h.completedDays.includes(dateStr))` — whether
at least one habit was completed on the given date. -/
def anyCompletedOn (habits : List Habit) (d : String) : Bool :=
  habits.any (fun h => h.completedDays.contains d)

/-- Dashboard: `habits.filter(h => h.completedDays.includes(today)).length`. -/
def completedToday (habits : List Habit) (today : String) : Nat :=
  (habits.filter (fun h => h.completedDays.contains today)).length

/-- Dashboard: `totalHabits > 0 ? Math.round((completedToday / totalHabits) * 100) : 0`.
`Math.round` of the nonnegative quotient is modelled as exact rational
rounding half-up: `(200*c + t) / (2*t)` in natural division equals
`⌊100*c/t + 1/2⌋`. -/
def completionRate (habits : List Habit) (today : String) : Nat :=
  if 0 < habits.length then
    (200 * completedToday habits today + habits.length) / (2 * habits.length)
  else 0

/-- The body of the Dashboard `while (true)` streak loop, starting at day
offset `k` back from today (`dateOf k` is the formatted date `k` days before
today).  The source loop is unbounded; `fuel` bounds the recursion and the
result is independent of `fuel` once the first incomplete day lies within it. -/
def streakGo (habits : List Habit) (dateOf : Nat → String) :
    Nat → Nat → Nat
  | _, 0 => 0
  | k, fuel + 1 =>
    if anyCompletedOn habits (dateOf k) then
      streakGo habits dateOf (k + 1) fuel + 1
    else 0

/-- Dashboard `calculateStreak`: returns 0 for an empty habit list, otherwise
walks backward from today counting consecutive days with at least one
completion. -/
def calculateStreak (habits : List Habit) (dateOf : Nat → String)
    (fuel : Nat) : Nat :=
  if habits.isEmpty then 0 else streakGo habits dateOf 0 fuel

end Dashboard

/-- The data-model invariant claimed by the spec: no habit's completion list
contains a duplicate date. -/
def completedNodup (s : HookState) : Prop :=
  ∀ h ∈ s.habits, h.completedDays.Nodup

/-- Well-formedness of a hook state: habit identifiers are pairwise distinct.
Every state arising in a run has this shape — `id` is the store's primary key
on load, and locally created habits get fresh UUIDs. -/
def habitIdsNodup (s : HookState) : Prop :=
  (s.habits.map (fun h => h.id)).Nodup

/-- The spec invariant on sleep data: every stored `hours` value lies in
[0, 24]. -/
def sleepHoursInRange (s : HookState) : Prop :=
  ∀ e ∈ s.sleepEntries, 0 ≤ e.hours ∧ e.hours ≤ 24

/-- The schema's `UNIQUE(habit_id, date)` constraint on `habit_completions`. -/
def completionsUnique (db : UseHabitsDb.RemoteDb) : Prop :=
  db.completions.Pairwise (fun a b => a.habitId ≠ b.habitId ∨ a.date ≠ b.date)

/-- A hook state with all four collections empty (also the state `load`
produces when no owner is authenticated). -/
def emptyHook : HookState :=
  { habits := [], sleepEntries := [], tasks := [], notes := [] }

/-- A degenerate state holding two habits that share the identifier "a" —
well-typed as a `HookState` but violating `habitIdsNodup` (no run of the
application produces it, since habit ids are store primary keys or fresh
UUIDs). -/
def dupIdState : HookState :=
  { habits := [{ id := "a", name := "n1", color := "c", createdAt := 0,
                 completedDays := ["d"] },
               { id := "a", name := "n2", color := "c", createdAt := 0,
                 completedDays := [] }],
    sleepEntries := [], tasks := [], notes := [] }

/-- Three habits of which exactly two are completed on "2024-01-05" (the
spec's completion-rate scenario). -/
def threeHabits : List Habit :=
  [{ id := "h1", name := "a", color := "c", createdAt := 0,
     completedDays := ["2024-01-05"] },
   { id := "h2", name := "b", color := "c", createdAt := 0,
     completedDays := ["2024-01-05", "2024-01-04"] },
   { id := "h3", name := "c", color := "c", createdAt := 0,
     completedDays := ["2024-01-04"] }]

section HelperLemmas

/-- Unfolding `sleepPatch` on a cons cell. -/
theorem sleepPatch_cons (date : String) (hours : Rat) (e : SleepEntry)
    (l : List SleepEntry) :
    sleepPatch date hours (e :: l) =
      if e.date == date then { date := date, hours := hours } :: l
      else e :: sleepPatch date hours l := by
  unfold sleepPatch
  rw [List.findIdx?_cons]
  cases he : e.date == date with
  | true =>
    simp [he]
  | false =>
    rw [List.findIdx?_succ]
    cases hf : l.findIdx? (fun x => x.date == date) with
    | none => simp [he, hf]
    | some i => simp [he, hf]

/-- Every element of a `sleepPatch` result is an old entry or the new one. -/
theorem mem_sleepPatch {date : String} {hours : Rat} {l : List SleepEntry}
    {e : SleepEntry} (he : e ∈ sleepPatch date hours l) :
    e ∈ l ∨ e = { date := date, hours := hours } := by
  unfold sleepPatch at he
  cases hf : l.findIdx? (fun x => x.date == date) with
  | none =>
    rw [hf] at he
    rcases List.mem_append.mp he with h | h
    · exact Or.inl h
    · exact Or.inr (List.mem_singleton.mp h)
  | some i =>
    rw [hf] at he
    exact List.mem_or_eq_of_mem_set he

/-- With pairwise-distinct ids, `find?` on an id locates exactly the member
bearing it. -/
theorem find_id_of_nodup {l : List Habit} {h : Habit} {i : String}
    (hn : (l.map (fun x => x.id)).Nodup) (hm : h ∈ l) (hi : h.id = i) :
    l.find? (fun x => x.id == i) = some h := by
  subst hi
  induction l with
  | nil => cases hm
  | cons y t ih =>
    rw [List.map_cons, List.nodup_cons] at hn
    rw [List.find?_cons]
    cases hy : y.id == h.id with
    | true =>
      rcases List.mem_cons.mp hm with rfl | hmt
      · rfl
      · exact absurd (List.mem_map.mpr ⟨h, hmt, (beq_iff_eq.mp hy).symm⟩) hn.1
    | false =>
      rcases List.mem_cons.mp hm with rfl | hmt
      · simp at hy
      · exact ih hn.2 hmt

/-- A member of `l` that bears the same id as another member is that member,
when ids are pairwise distinct. -/
theorem habit_eq_of_id_eq {l : List Habit} {a b : Habit}
    (hn : (l.map (fun x => x.id)).Nodup) (ha : a ∈ l) (hb : b ∈ l)
    (hid : a.id = b.id) : a = b :=
  List.inj_on_of_nodup_map hn ha hb hid

/-- Filtering a date out removes it. -/
theorem contains_filter_ne (l : List String) (d : String) :
    (l.filter (fun x => x != d)).contains d = false := by
  simp [List.contains, List.elem_eq_mem, List.mem_filter]

/-- Appending a date makes it present. -/
theorem contains_append_singleton (l : List String) (d : String) :
    (l ++ [d]).contains d = true := by
  simp [List.contains, List.elem_eq_mem]

/-- `contains = false` means non-membership. -/
theorem not_mem_of_contains_false {l : List String} {d : String}
    (h : l.contains d = false) : d ∉ l := by
  simpa [List.contains, List.elem_eq_mem] using h

/-- `contains = true` means membership. -/
theorem mem_of_contains_true {l : List String} {d : String}
    (h : l.contains d = true) : d ∈ l := by
  simpa [List.contains, List.elem_eq_mem] using h

end HelperLemmas

/-- Claim C4: every mutation of the sync hook leaves local state unmodified on
its failure paths.  With no authenticated owner each mutation returns the state
untouched and issues zero remote requests, and `fetchData` (load) sets all four
collections to empty with zero requests; when the remote write is rejected
(`remoteOk = false`, or a `none` insert result) the local patch is not applied
— in particular `toggleHabitDay` patches only after remote success. -/
theorem c4_failure_paths :
    (∀ db, UseHabitsDb.fetchData none db = (emptyHook, 0)) ∧
    (∀ r s, UseHabitsDb.addHabit none r s = (s, 0)) ∧
    (∀ id u ok s, UseHabitsDb.updateHabit none id u ok s = (s, 0)) ∧
    (∀ id ok s, UseHabitsDb.deleteHabit none id ok s = (s, 0)) ∧
    (∀ hid d ok s, UseHabitsDb.toggleHabitDay none hid d ok s = (s, 0)) ∧
    (∀ d h ok s, UseHabitsDb.addSleepEntry none d h ok s = (s, 0)) ∧
    (∀ r s, UseHabitsDb.addTask none r s = (s, 0)) ∧
    (∀ id u ok s, UseHabitsDb.updateTask none id u ok s = (s, 0)) ∧
    (∀ id ok s, UseHabitsDb.deleteTask none id ok s = (s, 0)) ∧
    (∀ r s, UseHabitsDb.addNote none r s = (s, 0)) ∧
    (∀ id c ok s, UseHabitsDb.updateNote none id c ok s = (s, 0)) ∧
    (∀ id ok s, UseHabitsDb.deleteNote none id ok s = (s, 0)) ∧
    (∀ user s, (UseHabitsDb.addHabit user none s).fst = s) ∧
    (∀ user id u s, (UseHabitsDb.updateHabit user id u false s).fst = s) ∧
    (∀ user id s, (UseHabitsDb.deleteHabit user id false s).fst = s) ∧
    (∀ user hid d s, (UseHabitsDb.toggleHabitDay user hid d false s).fst = s) ∧
    (∀ user d h s, (UseHabitsDb.addSleepEntry user d h false s).fst = s) ∧
    (∀ user s, (UseHabitsDb.addTask user none s).fst = s) ∧
    (∀ user id u s, (UseHabitsDb.updateTask user id u false s).fst = s) ∧
    (∀ user id s, (UseHabitsDb.deleteTask user id false s).fst = s) ∧
    (∀ user s, (UseHabitsDb.addNote user none s).fst = s) ∧
    (∀ user id c s, (UseHabitsDb.updateNote user id c false s).fst = s) ∧
    (∀ user id s, (UseHabitsDb.deleteNote user id false s).fst = s) := by
  refine ⟨fun db => rfl, fun r s => rfl, fun id u ok s => rfl, fun id ok s => rfl,
    fun hid d ok s => rfl, fun d h ok s => rfl, fun r s => rfl,
    fun id u ok s => rfl, fun id ok s => rfl, fun r s => rfl,
    fun id c ok s => rfl, fun id ok s => rfl,
    fun user s => ?_, fun user id u s => ?_, fun user id s => ?_,
    fun user hid d s => ?_, fun user d h s => ?_, fun user s => ?_,
    fun user id u s => ?_, fun user id s => ?_, fun user s => ?_,
    fun user id c s => ?_, fun user id s => ?_⟩
  all_goals cases user with
  | none => rfl
  | some uid =>
    first
    | rfl
    | (rcases hf : s.habits.find? (fun h => h.id == hid) with _ | habit <;>
        simp [UseHabitsDb.toggleHabitDay, hf])

/-- Claim C7 (counterexample): the localStorage-backed hook's `addNote`
**appends** the new note (`[...prev, newNote]`), so the new note is not
prepended and the notes list is not newest-first there. -/
theorem c7_counterexample :
    (UseHabits.addNote "n2" 5 "new content" "2024-01-02"
        { emptyHook with
          notes := [{ id := "n1", content := "old", date := "2024-01-01",
                      createdAt := 0 }] }).notes ≠
      [{ id := "n2", content := "new content", date := "2024-01-02",
         createdAt := 5 },
       { id := "n1", content := "old", date := "2024-01-01", createdAt := 0 }] := by
  decide

/-- Claim C7 (amended): in the remote-backed hook `useHabitsDb`, every
successful `addNote` prepends the created note, and a newest-first ordering by
creation time is preserved when the new note is the newest; in the
localStorage-backed hook `useHabits`, `addNote` appends the new note, leaving
prior notes in order before it. -/
theorem c7_amended :
    (∀ (uid : String) (row : UseHabitsDb.NoteRow) (s : HookState),
      (UseHabitsDb.addNote (some uid) (some row) s).fst.notes =
        { id := row.id, content := row.content, date := row.date,
          createdAt := row.createdAt } :: s.notes) ∧
    (∀ (uid : String) (row : UseHabitsDb.NoteRow) (s : HookState),
      s.notes.Sorted (fun a b => b.createdAt ≤ a.createdAt) →
      (∀ n ∈ s.notes, n.createdAt ≤ row.createdAt) →
      (UseHabitsDb.addNote (some uid) (some row) s).fst.notes.Sorted
        (fun a b => b.createdAt ≤ a.createdAt)) ∧
    (∀ (id : String) (t : Int) (content date : String) (s : HookState),
      (UseHabits.addNote id t content date s).notes =
        s.notes ++ [{ id := id, content := content, date := date,
                      createdAt := t }]) := by
  refine ⟨fun uid row s => rfl, fun uid row s hsort hmax => ?_,
    fun id t content date s => rfl⟩
  simpa [UseHabitsDb.addNote, List.sorted_cons] using ⟨hmax, hsort⟩

/-- Claim C7 (witness for the amended claim's sortedness conjunct). -/
theorem c7_witness :
    (UseHabitsDb.addNote (some "u")
        (some { id := "n1", userId := "u", content := "c",
                date := "2024-01-01", createdAt := 5 }) emptyHook).fst.notes.Sorted
      (fun a b => b.createdAt ≤ a.createdAt) :=
  c7_amended.2.1 "u"
    { id := "n1", userId := "u", content := "c", date := "2024-01-01",
      createdAt := 5 } emptyHook (by simp [emptyHook]) (by simp [emptyHook])

/-- Claim C8 (counterexample): nothing clamps sleep hours in the
localStorage-backed hook — `addSleepEntry("2024-01-01", 25)` stores 25, which
lies outside [0, 24]. -/
theorem c8_counterexample :
    ¬ sleepHoursInRange (UseHabits.addSleepEntry "2024-01-01" 25 emptyHook) := by
  intro h
  have h25 := h { date := "2024-01-01", hours := 25 } (by decide)
  exact absurd h25.2 (by norm_num)

/-- Claim C8 (amended): sleep hours are rejected — not clamped — outside
[0, 24].  In the remote-backed hook, the store's CHECK constraint
(`hours >= 0 AND hours <= 24`) is the only guard: whenever the remote upsert
succeeds only for in-range hours, `addSleepEntry` preserves the invariant that
all stored hours lie in [0, 24]; the localStorage-backed hook stores the given
value unvalidated, so it preserves the invariant only when the caller passes
in-range hours (its sole caller uses hours from {5,…,9}). -/
theorem c8_amended :
    (∀ (user : Option String) (date : String) (hours : Rat) (remoteOk : Bool)
        (s : HookState), sleepHoursInRange s →
      (remoteOk = true → Schema.sleepHoursCheck hours = true) →
      sleepHoursInRange (UseHabitsDb.addSleepEntry user date hours remoteOk s).fst) ∧
    (∀ (date : String) (hours : Rat) (s : HookState), sleepHoursInRange s →
      0 ≤ hours → hours ≤ 24 →
      sleepHoursInRange (UseHabits.addSleepEntry date hours s)) := by
  constructor
  · intro user date hours remoteOk s hs hok
    cases user with
    | none => exact hs
    | some uid =>
      cases remoteOk with
      | false => exact hs
      | true =>
        have hb := hok rfl
        rw [Schema.sleepHoursCheck, Bool.and_eq_true, decide_eq_true_eq,
          decide_eq_true_eq] at hb
        intro e he
        rcases mem_sleepPatch he with hmem | rfl
        · exact hs e hmem
        · exact hb
  · intro date hours s hs h0 h24
    intro e he
    rcases mem_sleepPatch he with hmem | rfl
    · exact hs e hmem
    · exact ⟨h0, h24⟩

/-- Claim C8 (witness for the amended claim). -/
theorem c8_witness :
    sleepHoursInRange
      (UseHabitsDb.addSleepEntry (some "u") "2024-01-01" 8 true emptyHook).fst :=
  c8_amended.1 (some "u") "2024-01-01" 8 true emptyHook
    (fun e he => by simp [emptyHook] at he) (fun _ => by decide)

/-- Claim C9 (counterexample): the `updates` type of `updateHabit`,
`Partial<Omit<Habit, 'id' | 'createdAt'>>`, admits a `completedDays` field, and
the hook splices it into local state verbatim — so `updateHabit` can mutate the
completion set. -/
theorem c9_counterexample :
    ((UseHabitsDb.updateHabit (some "u") "h1"
        { name := none, color := none, completedDays := some [] } true
        { emptyHook with
          habits := [{ id := "h1", name := "n", color := "c", createdAt := 0,
                       completedDays := ["2024-01-01"] }] }).fst.habits.map
      (fun h => h.completedDays)) ≠ [["2024-01-01"]] := by
  decide

/-- Claim C9 (amended): on its successful-remote path, `updateHabit(id, updates)`
applies exactly the fields supplied in `updates` — which the interface permits
to be any of name, color and completedDays — to every habit bearing `id`; it
never changes a habit's identifier or creation time, leaves the completion set
untouched whenever `updates` does not supply one, and leaves every habit with a
different identifier entirely unchanged. -/
theorem c9_amended (uid id : String) (u : HabitUpdates) (s : HookState) :
    List.Forall₂ (fun h0 h1 =>
      h1.id = h0.id ∧ h1.createdAt = h0.createdAt ∧
      (h0.id ≠ id → h1 = h0) ∧
      (u.completedDays = none → h1.completedDays = h0.completedDays) ∧
      (h0.id = id → h1.name = u.name.getD h0.name ∧
        h1.color = u.color.getD h0.color ∧
        h1.completedDays = u.completedDays.getD h0.completedDays))
      s.habits (UseHabitsDb.updateHabit (some uid) id u true s).fst.habits := by
  have : (UseHabitsDb.updateHabit (some uid) id u true s).fst.habits =
      s.habits.map (fun h => if h.id == id then applyHabitUpdates h u else h) := rfl
  rw [this, List.forall₂_map_right_iff, List.forall₂_same]
  intro x _
  cases hx : x.id == id with
  | true =>
    have hxe : x.id = id := beq_iff_eq.mp hx
    refine ⟨rfl, rfl, fun hne => absurd hxe hne, fun hnone => ?_,
      fun _ => ⟨rfl, rfl, rfl⟩⟩
    simp [applyHabitUpdates, hnone]
  | false =>
    have hxe : x.id ≠ id := by simpa using hx
    exact ⟨rfl, rfl, fun _ => rfl, fun _ => rfl, fun heq => absurd heq hxe⟩

/-- Claim C9 (witness for the amended claim, at a concrete state and update). -/
theorem c9_witness :
    List.Forall₂ (fun h0 h1 =>
      h1.id = h0.id ∧ h1.createdAt = h0.createdAt ∧
      (h0.id ≠ "h1" → h1 = h0) ∧
      (({ name := some "renamed", color := none,
          completedDays := none } : HabitUpdates).completedDays = none →
        h1.completedDays = h0.completedDays) ∧
      (h0.id = "h1" →
        h1.name = (some "renamed").getD h0.name ∧
        h1.color = (none : Option String).getD h0.color ∧
        h1.completedDays = (none : Option (List String)).getD h0.completedDays))
      ({ emptyHook with
         habits := [{ id := "h1", name := "n", color := "c", createdAt := 0,
                      completedDays := ["2024-01-01"] }] } : HookState).habits
      (UseHabitsDb.updateHabit (some "u") "h1"
        { name := some "renamed", color := none, completedDays := none } true
        { emptyHook with
          habits := [{ id := "h1", name := "n", color := "c", createdAt := 0,
                       completedDays := ["2024-01-01"] }] }).fst.habits :=
  c9_amended "u" "h1" ⟨some "renamed", none, none⟩ _

/-- The streak loop counts exactly the leading run of completed days: if the
`n` days at offsets `k, k+1, …, k+n-1` each have a completion and the day at
offset `k+n` has none, the loop returns `n` (for any fuel above `n`). -/
theorem streakGo_eq (habits : List Habit) (dateOf : Nat → String) :
    ∀ (fuel k n : Nat), n < fuel →
    (∀ j, j < n → Dashboard.anyCompletedOn habits (dateOf (k + j)) = true) →
    Dashboard.anyCompletedOn habits (dateOf (k + n)) = false →
    Dashboard.streakGo habits dateOf k fuel = n := by
  intro fuel
  induction fuel with
  | zero => exact fun k n hn _ _ => absurd hn (Nat.not_lt_zero n)
  | succ f ih =>
    intro k n hn hall hstop
    cases n with
    | zero =>
      have h0 : Dashboard.anyCompletedOn habits (dateOf k) = false := by
        simpa using hstop
      simp [Dashboard.streakGo, h0]
    | succ m =>
      have h0 : Dashboard.anyCompletedOn habits (dateOf k) = true := by
        simpa using hall 0 (Nat.succ_pos m)
      have hall' : ∀ j, j < m →
          Dashboard.anyCompletedOn habits (dateOf (k + 1 + j)) = true := by
        intro j hj
        have hjs := hall (j + 1) (Nat.succ_lt_succ hj)
        rwa [show k + (j + 1) = k + 1 + j by omega] at hjs
      have hstop' : Dashboard.anyCompletedOn habits (dateOf (k + 1 + m)) = false := by
        rwa [show k + (m + 1) = k + 1 + m by omega] at hstop
      have hrec := ih (k + 1) m (Nat.lt_of_succ_lt_succ hn) hall' hstop'
      simp [Dashboard.streakGo, h0, hrec]

/-- Claim C3: the streak computation walks backward day-by-day from today
(`dateOf 0`) and returns the number of consecutive days, ending at today, on
which at least one habit's completion set contains that day's date; in
particular, when no habit was completed today the result is 0 regardless of
any prior day's completions.  (`fuel` bounds the source's unbounded `while`
loop; the hypotheses place the first incomplete day within it, which makes the
result fuel-independent.) -/
theorem c3_streak :
    (∀ (habits : List Habit) (dateOf : Nat → String) (fuel n : Nat),
      n < fuel →
      (∀ k, k < n → Dashboard.anyCompletedOn habits (dateOf k) = true) →
      Dashboard.anyCompletedOn habits (dateOf n) = false →
      Dashboard.calculateStreak habits dateOf fuel = n) ∧
    (∀ (habits : List Habit) (dateOf : Nat → String) (fuel : Nat), 0 < fuel →
      Dashboard.anyCompletedOn habits (dateOf 0) = false →
      Dashboard.calculateStreak habits dateOf fuel = 0) := by
  have main : ∀ (habits : List Habit) (dateOf : Nat → String) (fuel n : Nat),
      n < fuel →
      (∀ k, k < n → Dashboard.anyCompletedOn habits (dateOf k) = true) →
      Dashboard.anyCompletedOn habits (dateOf n) = false →
      Dashboard.calculateStreak habits dateOf fuel = n := by
    intro habits dateOf fuel n hn hall hstop
    unfold Dashboard.calculateStreak
    cases hhe : habits.isEmpty with
    | true =>
      cases n with
      | zero => simp
      | succ m =>
        have hfalse : Dashboard.anyCompletedOn habits (dateOf 0) = false := by
          rw [List.isEmpty_iff.mp hhe]
          simp [Dashboard.anyCompletedOn]
        exact absurd (hall 0 (Nat.succ_pos m)) (by simp [hfalse])
    | false =>
      simp only [Bool.false_eq_true, if_false]
      exact streakGo_eq habits dateOf fuel 0 n hn
        (fun j hj => by simpa using hall j hj) (by simpa using hstop)
  exact ⟨main, fun habits dateOf fuel hf h0 =>
    main habits dateOf fuel 0 hf (fun k hk => absurd hk (Nat.not_lt_zero k)) h0⟩

/-- Claim C3 (witness): with completions on today and exactly the two prior
days, the streak is 3. -/
theorem c3_witness :
    Dashboard.calculateStreak
      [{ id := "h1", name := "n", color := "c", createdAt := 0,
         completedDays := ["2024-01-03", "2024-01-02", "2024-01-01"] }]
      (fun k => ["2024-01-03", "2024-01-02", "2024-01-01"].getD k "1999-12-31")
      4 = 3 :=
  c3_streak.1 _ _ 4 3 (by omega) (by decide) (by decide)

/-- Claim C6: the completion rate for today is 0 when there are no habits (no
division occurs), and otherwise equals the count of habits completed today,
divided by the habit count, as an exact percentage rounded half-up to the
nearest integer (`⌊100·c/t + 1/2⌋`); with 3 habits of which 2 are completed
today it is 67. -/
theorem c6_completion_rate :
    (∀ (habits : List Habit) (today : String), habits.length = 0 →
      Dashboard.completionRate habits today = 0) ∧
    (∀ (habits : List Habit) (today : String), 0 < habits.length →
      (Dashboard.completionRate habits today : ℤ) =
        ⌊(100 * (Dashboard.completedToday habits today : ℚ)) /
          (habits.length : ℚ) + 1 / 2⌋) ∧
    Dashboard.completionRate threeHabits "2024-01-05" = 67 ∧
    Dashboard.completionRate [] "2024-01-05" = 0 := by
  refine ⟨?_, ?_, by decide, by decide⟩
  · intro habits today h0
    simp [Dashboard.completionRate, h0]
  · intro habits today ht
    have hrate : Dashboard.completionRate habits today =
        (200 * Dashboard.completedToday habits today + habits.length) /
          (2 * habits.length) := by
      simp [Dashboard.completionRate, ht]
    set c := Dashboard.completedToday habits today with hc
    set t := habits.length with htdef
    set m := (200 * c + t) / (2 * t) with hm
    have h2t : 0 < 2 * t := by omega
    have h2tq : (0 : ℚ) < ((2 * t : ℕ) : ℚ) := by exact_mod_cast h2t
    have htq : ((t : ℕ) : ℚ) ≠ 0 := by
      exact_mod_cast Nat.pos_iff_ne_zero.mp ht
    have f1 : m * (2 * t) ≤ 200 * c + t := Nat.div_mul_le_self _ _
    have f2 : 200 * c + t < (m + 1) * (2 * t) := by
      have := (Nat.div_lt_iff_lt_mul h2t).mp (Nat.lt_succ_self m)
      exact this
    have hq : 100 * (c : ℚ) / (t : ℚ) + 1 / 2 =
        ((200 * c + t : ℕ) : ℚ) / ((2 * t : ℕ) : ℚ) := by
      push_cast
      field_simp
      ring
    have hfloor : ⌊((200 * c + t : ℕ) : ℚ) / ((2 * t : ℕ) : ℚ)⌋ = (m : ℤ) := by
      rw [Int.floor_eq_iff]
      constructor
      · rw [le_div_iff₀ h2tq]
        exact_mod_cast f1
      · rw [div_lt_iff₀ h2tq]
        push_cast
        exact_mod_cast f2
    rw [hrate, hq, hfloor]

/-- Claim C6 (witness): the rounding characterization applied at the concrete
3-habit, 2-completed scenario. -/
theorem c6_witness :
    (Dashboard.completionRate threeHabits "2024-01-05" : ℤ) =
      ⌊(100 * (Dashboard.completedToday threeHabits "2024-01-05" : ℚ)) /
        ((threeHabits : List Habit).length : ℚ) + 1 / 2⌋ :=
  c6_completion_rate.2.1 threeHabits "2024-01-05" (by decide)

/-- Upserting twice on the same date: when dates are pairwise distinct, the
result holds exactly one entry for the date — bearing the second hours value —
and entries for other dates are untouched. -/
theorem sleepPatch_twice (d : String) (h1 h2 : Rat) :
    ∀ (l : List SleepEntry), (l.map (fun e => e.date)).Nodup →
    (sleepPatch d h2 (sleepPatch d h1 l)).filter (fun e => e.date == d) =
      [{ date := d, hours := h2 }] ∧
    (sleepPatch d h2 (sleepPatch d h1 l)).filter (fun e => e.date != d) =
      l.filter (fun e => e.date != d) := by
  intro l
  induction l with
  | nil =>
    intro _
    have e1 : sleepPatch d h1 ([] : List SleepEntry) =
        [{ date := d, hours := h1 }] := rfl
    rw [e1, sleepPatch_cons]
    simp
  | cons e l ih =>
    intro hnd
    rw [List.map_cons, List.nodup_cons] at hnd
    obtain ⟨hed, hl⟩ := hnd
    cases he : e.date == d with
    | true =>
      have hede : e.date = d := beq_iff_eq.mp he
      have hp1 : sleepPatch d h1 (e :: l) = { date := d, hours := h1 } :: l := by
        rw [sleepPatch_cons]
        simp [he]
      have hp2 : sleepPatch d h2 ({ date := d, hours := h1 } :: l) =
          { date := d, hours := h2 } :: l := by
        rw [sleepPatch_cons]
        simp
      have hnl : l.filter (fun x => x.date == d) = [] := by
        rw [List.filter_eq_nil_iff]
        intro x hx
        cases hxd : x.date == d with
        | false => simp
        | true =>
          exfalso
          apply hed
          rw [hede, ← beq_iff_eq.mp hxd]
          exact List.mem_map_of_mem _ hx
      rw [hp1, hp2]
      constructor
      · rw [List.filter_cons]
        simp [hnl]
      · rw [List.filter_cons, List.filter_cons]
        simp [hede]
    | false =>
      have hp1 : sleepPatch d h1 (e :: l) = e :: sleepPatch d h1 l := by
        rw [sleepPatch_cons]
        simp [he]
      have hp2 : sleepPatch d h2 (e :: sleepPatch d h1 l) =
          e :: sleepPatch d h2 (sleepPatch d h1 l) := by
        rw [sleepPatch_cons]
        simp [he]
      obtain ⟨ihA, ihB⟩ := ih hl
      rw [hp1, hp2]
      constructor
      · rw [List.filter_cons]
        simp [he, ihA]
      · have hne : (e.date != d) = true := by simp [bne, he]
        rw [List.filter_cons, List.filter_cons]
        simp [hne, ihB]

/-- Claim C5: `addSleepEntry(d, h1)` then `addSleepEntry(d, h2)` (both remote
writes succeeding) leaves exactly one entry for date `d`, whose hours value is
`h2`, leaves entries for all other dates unchanged, and touches no other
collection — provided the state held at most one entry per date to begin with. -/
theorem c5_sleep_upsert (uid d : String) (h1 h2 : Rat) (s : HookState)
    (hnd : (s.sleepEntries.map (fun e => e.date)).Nodup) :
    ((UseHabitsDb.addSleepEntry (some uid) d h2 true
        (UseHabitsDb.addSleepEntry (some uid) d h1 true s).fst).fst.sleepEntries.filter
      (fun e => e.date == d) = [{ date := d, hours := h2 }]) ∧
    ((UseHabitsDb.addSleepEntry (some uid) d h2 true
        (UseHabitsDb.addSleepEntry (some uid) d h1 true s).fst).fst.sleepEntries.filter
      (fun e => e.date != d) = s.sleepEntries.filter (fun e => e.date != d)) ∧
    (UseHabitsDb.addSleepEntry (some uid) d h2 true
        (UseHabitsDb.addSleepEntry (some uid) d h1 true s).fst).fst.habits =
      s.habits ∧
    (UseHabitsDb.addSleepEntry (some uid) d h2 true
        (UseHabitsDb.addSleepEntry (some uid) d h1 true s).fst).fst.tasks =
      s.tasks ∧
    (UseHabitsDb.addSleepEntry (some uid) d h2 true
        (UseHabitsDb.addSleepEntry (some uid) d h1 true s).fst).fst.notes =
      s.notes := by
  have hseq : (UseHabitsDb.addSleepEntry (some uid) d h2 true
      (UseHabitsDb.addSleepEntry (some uid) d h1 true s).fst).fst.sleepEntries =
      sleepPatch d h2 (sleepPatch d h1 s.sleepEntries) := rfl
  obtain ⟨hA, hB⟩ := sleepPatch_twice d h1 h2 s.sleepEntries hnd
  exact ⟨by rw [hseq]; exact hA, by rw [hseq]; exact hB, rfl, rfl, rfl⟩

/-- Claim C5 (witness): the upsert pair applied to the empty state. -/
theorem c5_witness :
    ((UseHabitsDb.addSleepEntry (some "u") "2024-01-01" 9 true
        (UseHabitsDb.addSleepEntry (some "u") "2024-01-01" 6 true
          emptyHook).fst).fst.sleepEntries.filter
      (fun e => e.date == "2024-01-01") =
        [{ date := "2024-01-01", hours := 9 }]) ∧
    ((UseHabitsDb.addSleepEntry (some "u") "2024-01-01" 9 true
        (UseHabitsDb.addSleepEntry (some "u") "2024-01-01" 6 true
          emptyHook).fst).fst.sleepEntries.filter
      (fun e => e.date != "2024-01-01") =
        emptyHook.sleepEntries.filter (fun e => e.date != "2024-01-01")) ∧
    (UseHabitsDb.addSleepEntry (some "u") "2024-01-01" 9 true
        (UseHabitsDb.addSleepEntry (some "u") "2024-01-01" 6 true
          emptyHook).fst).fst.habits = emptyHook.habits ∧
    (UseHabitsDb.addSleepEntry (some "u") "2024-01-01" 9 true
        (UseHabitsDb.addSleepEntry (some "u") "2024-01-01" 6 true
          emptyHook).fst).fst.tasks = emptyHook.tasks ∧
    (UseHabitsDb.addSleepEntry (some "u") "2024-01-01" 9 true
        (UseHabitsDb.addSleepEntry (some "u") "2024-01-01" 6 true
          emptyHook).fst).fst.notes = emptyHook.notes :=
  c5_sleep_upsert "u" "2024-01-01" 6 9 emptyHook (by decide)

/-- Unfolding the remote-backed toggle on its successful path once the habit
has been located: every habit bearing the id is patched using the found
habit's membership test. -/
theorem toggleDb_found {uid habitId date : String} {s : HookState}
    {habit : Habit}
    (hf : s.habits.find? (fun h => h.id == habitId) = some habit) :
    (UseHabitsDb.toggleHabitDay (some uid) habitId date true s).fst =
      { s with habits := s.habits.map (fun h =>
          if h.id == habitId then
            { h with completedDays :=
                if habit.completedDays.contains date then
                  h.completedDays.filter (fun x => x != date)
                else h.completedDays ++ [date] }
          else h) } := by
  simp [UseHabitsDb.toggleHabitDay, hf]

/-- Claim C10 (counterexample): the two hooks' `toggleHabitDay` transitions
differ on a state with two habits sharing one id — the remote-backed hook
applies the first matching habit's membership test to both, the
localStorage-backed hook lets each habit test its own list. -/
theorem c10_counterexample :
    (UseHabitsDb.toggleHabitDay (some "u") "a" "d" true dupIdState).fst ≠
      UseHabits.toggleHabitDay "a" "d" dupIdState := by
  decide

/-- Claim C10 (amended): on every local state whose habit identifiers are
pairwise distinct (as in any state an actual run produces), the two hooks
compute the same local-state transition for the shared mutation API:
`toggleHabitDay`, `addSleepEntry`, `updateHabit`, `deleteHabit`, `updateTask`,
`deleteTask`, `updateNote` and `deleteNote` in useHabits coincide with the
successful-remote path of the corresponding useHabitsDb operation; all but the
toggle coincide on every state. -/
theorem c10_hooks_agree :
    (∀ (uid hid d : String) (s : HookState), habitIdsNodup s →
      (UseHabitsDb.toggleHabitDay (some uid) hid d true s).fst =
        UseHabits.toggleHabitDay hid d s) ∧
    (∀ (uid d : String) (h : Rat) (s : HookState),
      (UseHabitsDb.addSleepEntry (some uid) d h true s).fst =
        UseHabits.addSleepEntry d h s) ∧
    (∀ (uid id : String) (u : HabitUpdates) (s : HookState),
      (UseHabitsDb.updateHabit (some uid) id u true s).fst =
        UseHabits.updateHabit id u s) ∧
    (∀ (uid id : String) (s : HookState),
      (UseHabitsDb.deleteHabit (some uid) id true s).fst =
        UseHabits.deleteHabit id s) ∧
    (∀ (uid id : String) (u : TaskUpdates) (s : HookState),
      (UseHabitsDb.updateTask (some uid) id u true s).fst =
        UseHabits.updateTask id u s) ∧
    (∀ (uid id : String) (s : HookState),
      (UseHabitsDb.deleteTask (some uid) id true s).fst =
        UseHabits.deleteTask id s) ∧
    (∀ (uid id c : String) (s : HookState),
      (UseHabitsDb.updateNote (some uid) id c true s).fst =
        UseHabits.updateNote id c s) ∧
    (∀ (uid id : String) (s : HookState),
      (UseHabitsDb.deleteNote (some uid) id true s).fst =
        UseHabits.deleteNote id s) := by
  refine ⟨?_, fun uid d h s => rfl, fun uid id u s => rfl, fun uid id s => rfl,
    fun uid id u s => rfl, fun uid id s => rfl, fun uid id c s => rfl,
    fun uid id s => rfl⟩
  intro uid hid d s hids
  cases hf : s.habits.find? (fun h => h.id == hid) with
  | none =>
    have hnone : ∀ x ∈ s.habits, (x.id == hid) = false := by
      intro x hx
      cases hb : x.id == hid with
      | false => rfl
      | true => exact absurd hb (List.find?_eq_none.mp hf x hx)
    have hdb : (UseHabitsDb.toggleHabitDay (some uid) hid d true s).fst = s := by
      simp [UseHabitsDb.toggleHabitDay, hf]
    have hmap : s.habits.map (fun h =>
        if h.id == hid then
          if h.completedDays.contains d then
            { h with completedDays := h.completedDays.filter (fun x => x != d) }
          else { h with completedDays := h.completedDays ++ [d] }
        else h) = s.habits := by
      calc s.habits.map _ = s.habits.map id :=
            List.map_congr_left (fun a ha => by simp [hnone a ha])
        _ = s.habits := List.map_id _
    rw [hdb]
    show s = { s with habits := _ }
    rw [hmap]
  | some habit =>
    have hmemh := List.mem_of_find?_eq_some hf
    have hidh : habit.id = hid := by simpa using List.find?_some hf
    rw [toggleDb_found hf]
    show ({ s with habits := _ } : HookState) = { s with habits := _ }
    have hmap : ∀ a ∈ s.habits,
        (if a.id == hid then
          { a with completedDays :=
              if habit.completedDays.contains d then
                a.completedDays.filter (fun x => x != d)
              else a.completedDays ++ [d] }
        else a) =
        (if a.id == hid then
          if a.completedDays.contains d then
            { a with completedDays := a.completedDays.filter (fun x => x != d) }
          else { a with completedDays := a.completedDays ++ [d] }
        else a) := by
      intro a ha
      cases hax : a.id == hid with
      | false => simp [hax]
      | true =>
        have haeq : a = habit :=
          habit_eq_of_id_eq hids ha hmemh (by rw [beq_iff_eq.mp hax, hidh])
        subst haeq
        cases hc : a.completedDays.contains d with
        | false => simp [hax, hc]
        | true => simp [hax, hc]
    rw [List.map_congr_left hmap]

/-- Claim C10 (witness for the amended claim's toggle conjunct). -/
theorem c10_witness :
    (UseHabitsDb.toggleHabitDay (some "u") "h1" "2024-01-02" true
        { emptyHook with
          habits := [{ id := "h1", name := "n", color := "c", createdAt := 0,
                       completedDays := ["2024-01-01"] }] }).fst =
      UseHabits.toggleHabitDay "h1" "2024-01-02"
        { emptyHook with
          habits := [{ id := "h1", name := "n", color := "c", createdAt := 0,
                       completedDays := ["2024-01-01"] }] } :=
  c10_hooks_agree.1 "u" "h1" "2024-01-02" _ (by unfold habitIdsNodup; decide)

/-- Claim C2 (counterexample): on a state with two habits sharing one id, the
remote-backed double toggle does not leave "every other habit" unchanged — the
second habit sharing the id acquires the date it never had. -/
theorem c2_counterexample :
    ((UseHabitsDb.toggleHabitDay (some "u") "a" "d" true
        (UseHabitsDb.toggleHabitDay (some "u") "a" "d" true
          dupIdState).fst).fst.habits.map
      (fun h => h.completedDays.contains "d")) = [true, true] ∧
    dupIdState.habits.map (fun h => h.completedDays.contains "d") =
      [true, false] := by
  decide

/-- Claim C2 (amended): on a state whose habit ids are pairwise distinct (as in
any state an actual run produces), toggling the same (habit, date) twice with
both remote calls succeeding restores the toggled habit's completion list as a
set of dates — and preserves its id, name, color and creation time — while
every habit with a different id is left entirely unchanged. -/
theorem c2_toggle_twice (uid habitId date : String) (s : HookState) (h : Habit)
    (hids : habitIdsNodup s) (hmem : h ∈ s.habits) (hid : h.id = habitId)
    (hnd : h.completedDays.Nodup) :
    List.Forall₂ (fun h0 h2 =>
      (h0.id ≠ habitId → h2 = h0) ∧
      (h0.id = habitId → h2.id = h0.id ∧ h2.name = h0.name ∧
        h2.color = h0.color ∧ h2.createdAt = h0.createdAt ∧
        (∀ y, y ∈ h2.completedDays ↔ y ∈ h0.completedDays)))
      s.habits
      (UseHabitsDb.toggleHabitDay (some uid) habitId date true
        (UseHabitsDb.toggleHabitDay (some uid) habitId date true
          s).fst).fst.habits := by
  have hf1 : s.habits.find? (fun x => x.id == habitId) = some h :=
    find_id_of_nodup hids hmem hid
  cases hc : h.completedDays.contains date with
  | true =>
    have hs1 : (UseHabitsDb.toggleHabitDay (some uid) habitId date true s).fst =
        { s with habits := s.habits.map (fun x =>
            if x.id == habitId then
              { x with completedDays :=
                  x.completedDays.filter (fun y => y != date) }
            else x) } := by
      rw [toggleDb_found hf1, hc]
      simp
    have hf1h : (fun x =>
        if x.id == habitId then
          ({ x with completedDays :=
              x.completedDays.filter (fun y => y != date) } : Habit)
        else x) h =
        { h with completedDays :=
            h.completedDays.filter (fun y => y != date) } := by
      simp [hid]
    have hids1 : ((s.habits.map (fun x =>
        if x.id == habitId then
          ({ x with completedDays :=
              x.completedDays.filter (fun y => y != date) } : Habit)
        else x)).map (fun x => x.id)).Nodup := by
      rw [List.map_map]
      have hsame : s.habits.map ((fun x => x.id) ∘ (fun x =>
          if x.id == habitId then
            ({ x with completedDays :=
                x.completedDays.filter (fun y => y != date) } : Habit)
          else x)) = s.habits.map (fun x => x.id) :=
        List.map_congr_left (fun a _ => by
          simp only [Function.comp_apply]
          split <;> rfl)
      rw [hsame]
      exact hids
    have hmem1 : (fun x =>
        if x.id == habitId then
          ({ x with completedDays :=
              x.completedDays.filter (fun y => y != date) } : Habit)
        else x) h ∈ s.habits.map (fun x =>
          if x.id == habitId then
            ({ x with completedDays :=
                x.completedDays.filter (fun y => y != date) } : Habit)
          else x) :=
      List.mem_map_of_mem _ hmem
    have hf2 := find_id_of_nodup (i := habitId) hids1 hmem1
      (by rw [hf1h]; exact hid)
    rw [hf1h] at hf2
    have hs2 : (UseHabitsDb.toggleHabitDay (some uid) habitId date true
        { s with habits := s.habits.map (fun x =>
            if x.id == habitId then
              ({ x with completedDays :=
                  x.completedDays.filter (fun y => y != date) } : Habit)
            else x) }).fst =
        { s with habits := (s.habits.map (fun x =>
            if x.id == habitId then
              ({ x with completedDays :=
                  x.completedDays.filter (fun y => y != date) } : Habit)
            else x)).map (fun x =>
              if x.id == habitId then
                { x with completedDays := x.completedDays ++ [date] }
              else x) } := by
      rw [toggleDb_found hf2]
      simp [contains_filter_ne]
    have hhabs : (UseHabitsDb.toggleHabitDay (some uid) habitId date true
        (UseHabitsDb.toggleHabitDay (some uid) habitId date true
          s).fst).fst.habits =
        (s.habits.map (fun x =>
          if x.id == habitId then
            ({ x with completedDays :=
                x.completedDays.filter (fun y => y != date) } : Habit)
          else x)).map (fun x =>
            if x.id == habitId then
              { x with completedDays := x.completedDays ++ [date] }
            else x) := by
      rw [hs1, hs2]
    rw [hhabs, List.map_map, List.forall₂_map_right_iff, List.forall₂_same]
    intro x hx
    cases hax : x.id == habitId with
    | false =>
      refine ⟨fun _ => ?_, fun hxeq => absurd hxeq (by simpa using hax)⟩
      simp [Function.comp, hax]
    | true =>
      have hxh : x = h :=
        habit_eq_of_id_eq hids hx hmem (by rw [beq_iff_eq.mp hax, ← hid])
      subst hxh
      have hbx : (x.id == habitId) = true := by simp [hid]
      refine ⟨fun hne => absurd hid hne, fun _ => ?_⟩
      simp only [Function.comp_apply, if_pos hbx]
      refine ⟨by trivial, by trivial, by trivial, by trivial, fun y => ?_⟩
      show y ∈ x.completedDays.filter (fun y => y != date) ++ [date] ↔
        y ∈ x.completedDays
      simp only [List.mem_append, List.mem_filter, bne_iff_ne,
        List.mem_singleton]
      constructor
      · rintro (⟨hy, _⟩ | rfl)
        · exact hy
        · exact mem_of_contains_true hc
      · intro hy
        by_cases hyd : y = date
        · exact Or.inr hyd
        · exact Or.inl ⟨hy, hyd⟩
  | false =>
    have hs1 : (UseHabitsDb.toggleHabitDay (some uid) habitId date true s).fst =
        { s with habits := s.habits.map (fun x =>
            if x.id == habitId then
              { x with completedDays := x.completedDays ++ [date] }
            else x) } := by
      rw [toggleDb_found hf1, hc]
      simp
    have hf1h : (fun x =>
        if x.id == habitId then
          ({ x with completedDays := x.completedDays ++ [date] } : Habit)
        else x) h =
        { h with completedDays := h.completedDays ++ [date] } := by
      simp [hid]
    have hids1 : ((s.habits.map (fun x =>
        if x.id == habitId then
          ({ x with completedDays := x.completedDays ++ [date] } : Habit)
        else x)).map (fun x => x.id)).Nodup := by
      rw [List.map_map]
      have hsame : s.habits.map ((fun x => x.id) ∘ (fun x =>
          if x.id == habitId then
            ({ x with completedDays := x.completedDays ++ [date] } : Habit)
          else x)) = s.habits.map (fun x => x.id) :=
        List.map_congr_left (fun a _ => by
          simp only [Function.comp_apply]
          split <;> rfl)
      rw [hsame]
      exact hids
    have hmem1 : (fun x =>
        if x.id == habitId then
          ({ x with completedDays := x.completedDays ++ [date] } : Habit)
        else x) h ∈ s.habits.map (fun x =>
          if x.id == habitId then
            ({ x with completedDays := x.completedDays ++ [date] } : Habit)
          else x) :=
      List.mem_map_of_mem _ hmem
    have hf2 := find_id_of_nodup (i := habitId) hids1 hmem1
      (by rw [hf1h]; exact hid)
    rw [hf1h] at hf2
    have hs2 : (UseHabitsDb.toggleHabitDay (some uid) habitId date true
        { s with habits := s.habits.map (fun x =>
            if x.id == habitId then
              ({ x with completedDays := x.completedDays ++ [date] } : Habit)
            else x) }).fst =
        { s with habits := (s.habits.map (fun x =>
            if x.id == habitId then
              ({ x with completedDays := x.completedDays ++ [date] } : Habit)
            else x)).map (fun x =>
              if x.id == habitId then
                { x with completedDays :=
                    x.completedDays.filter (fun y => y != date) }
              else x) } := by
      rw [toggleDb_found hf2]
      simp [contains_append_singleton]
    have hhabs : (UseHabitsDb.toggleHabitDay (some uid) habitId date true
        (UseHabitsDb.toggleHabitDay (some uid) habitId date true
          s).fst).fst.habits =
        (s.habits.map (fun x =>
          if x.id == habitId then
            ({ x with completedDays := x.completedDays ++ [date] } : Habit)
          else x)).map (fun x =>
            if x.id == habitId then
              { x with completedDays :=
                  x.completedDays.filter (fun y => y != date) }
            else x) := by
      rw [hs1, hs2]
    rw [hhabs, List.map_map, List.forall₂_map_right_iff, List.forall₂_same]
    intro x hx
    cases hax : x.id == habitId with
    | false =>
      refine ⟨fun _ => ?_, fun hxeq => absurd hxeq (by simpa using hax)⟩
      simp [Function.comp, hax]
    | true =>
      have hxh : x = h :=
        habit_eq_of_id_eq hids hx hmem (by rw [beq_iff_eq.mp hax, ← hid])
      subst hxh
      refine ⟨fun hne => absurd hid hne, fun _ => ?_⟩
      have hfd : (x.completedDays ++ [date]).filter (fun y => y != date) =
          x.completedDays := by
        rw [List.filter_append]
        have hsingle : [date].filter (fun y => y != date) = [] := by simp
        have hself : x.completedDays.filter (fun y => y != date) =
            x.completedDays := by
          rw [List.filter_eq_self]
          intro a ha
          have hne : a ≠ date :=
            fun heq => (not_mem_of_contains_false hc) (heq ▸ ha)
          simpa [bne_iff_ne] using hne
        rw [hsingle, hself, List.append_nil]
      have hbx : (x.id == habitId) = true := by simp [hid]
      simp only [Function.comp_apply, if_pos hbx]
      refine ⟨by trivial, by trivial, by trivial, by trivial, fun y => ?_⟩
      show y ∈ (x.completedDays ++ [date]).filter (fun y => y != date) ↔
        y ∈ x.completedDays
      rw [hfd]

/-- Claim C2 (witness for the amended claim). -/
theorem c2_witness :
    List.Forall₂ (fun h0 h2 =>
      (h0.id ≠ "h1" → h2 = h0) ∧
      (h0.id = "h1" → h2.id = h0.id ∧ h2.name = h0.name ∧
        h2.color = h0.color ∧ h2.createdAt = h0.createdAt ∧
        (∀ y, y ∈ h2.completedDays ↔ y ∈ h0.completedDays)))
      ({ emptyHook with
         habits := [{ id := "h1", name := "n", color := "c", createdAt := 0,
                      completedDays := ["2024-01-01"] }] } : HookState).habits
      (UseHabitsDb.toggleHabitDay (some "u") "h1" "2024-01-01" true
        (UseHabitsDb.toggleHabitDay (some "u") "h1" "2024-01-01" true
          { emptyHook with
            habits := [{ id := "h1", name := "n", color := "c", createdAt := 0,
                         completedDays := ["2024-01-01"] }] }).fst).fst.habits :=
  c2_toggle_twice "u" "h1" "2024-01-01" _
    { id := "h1", name := "n", color := "c", createdAt := 0,
      completedDays := ["2024-01-01"] }
    (by unfold habitIdsNodup; decide) (by decide) rfl (by decide)

/-- Claim C1 (counterexample): from a reachable state (one habit, empty
completion list), `updateHabit` with an updates object carrying a duplicated
`completedDays` list — which its interface type admits — breaks the
no-duplicate-dates invariant. -/
theorem c1_counterexample :
    completedNodup { emptyHook with
      habits := [{ id := "h1", name := "n", color := "c", createdAt := 0,
                   completedDays := [] }] } ∧
    ¬ completedNodup (UseHabitsDb.updateHabit (some "u") "h1"
        { name := none, color := none,
          completedDays := some ["2024-01-01", "2024-01-01"] } true
        { emptyHook with
          habits := [{ id := "h1", name := "n", color := "c", createdAt := 0,
                       completedDays := [] }] }).fst :=
  ⟨by unfold completedNodup; decide, by unfold completedNodup; decide⟩

/-- Claim C1 (amended): the no-duplicate-dates invariant is established by
`load` from a store satisfying the schema's `UNIQUE(habit_id, date)`
constraint, and preserved by `addHabit`, `deleteHabit`, and (on states with
pairwise-distinct habit ids, as every run produces) `toggleHabitDay`;
`updateHabit` preserves it exactly when the `completedDays` list its updates
argument supplies, if any, is itself duplicate-free. -/
theorem c1_invariant :
    (∀ (user : Option String) (db : UseHabitsDb.RemoteDb),
      completionsUnique db →
      completedNodup (UseHabitsDb.fetchData user db).fst) ∧
    (∀ (user : Option String) (r : Option UseHabitsDb.HabitRow) (s : HookState),
      completedNodup s → completedNodup (UseHabitsDb.addHabit user r s).fst) ∧
    (∀ (user : Option String) (id : String) (u : HabitUpdates) (ok : Bool)
        (s : HookState), completedNodup s →
      (∀ l, u.completedDays = some l → l.Nodup) →
      completedNodup (UseHabitsDb.updateHabit user id u ok s).fst) ∧
    (∀ (user : Option String) (id : String) (ok : Bool) (s : HookState),
      completedNodup s →
      completedNodup (UseHabitsDb.deleteHabit user id ok s).fst) ∧
    (∀ (user : Option String) (hid d : String) (ok : Bool) (s : HookState),
      habitIdsNodup s → completedNodup s →
      completedNodup (UseHabitsDb.toggleHabitDay user hid d ok s).fst) := by
  refine ⟨?_, ?_, ?_, ?_, ?_⟩
  · intro user db hu
    cases user with
    | none =>
      intro h hm
      simp [UseHabitsDb.fetchData] at hm
    | some uid =>
      intro h hm
      simp only [UseHabitsDb.fetchData] at hm
      obtain ⟨row, _, rfl⟩ := List.mem_map.mp hm
      show (((db.completions.filter (fun c => c.userId == uid)).filter
          (fun c => c.habitId == row.id)).map (fun c => c.date)).Nodup
      have hp : ((db.completions.filter (fun c => c.userId == uid)).filter
          (fun c => c.habitId == row.id)).Pairwise
          (fun a b => a.habitId ≠ b.habitId ∨ a.date ≠ b.date) :=
        List.Pairwise.filter _ (List.Pairwise.filter _ hu)
      rw [List.Nodup, List.pairwise_map]
      refine hp.imp_of_mem ?_
      intro a b ha hb hab
      have ha2 : a.habitId = row.id := by
        have := (List.mem_filter.mp ha).2
        simpa using this
      have hb2 : b.habitId = row.id := by
        have := (List.mem_filter.mp hb).2
        simpa using this
      rcases hab with hne | hne
      · exact absurd (ha2.trans hb2.symm) hne
      · exact hne
  · intro user r s hs
    cases user with
    | none => exact hs
    | some uid =>
      cases r with
      | none => exact hs
      | some row =>
        intro h hm
        rcases List.mem_append.mp hm with hold | hnew
        · exact hs h hold
        · rw [List.mem_singleton.mp hnew]
          exact List.nodup_nil
  · intro user id u ok s hs hu
    cases user with
    | none => exact hs
    | some uid =>
      cases ok with
      | false => exact hs
      | true =>
        intro h hm
        obtain ⟨x, hx, rfl⟩ := List.mem_map.mp hm
        cases haq : x.id == id with
        | false =>
          simp only [haq, Bool.false_eq_true, if_false]
          exact hs x hx
        | true =>
          simp only [haq, if_true]
          cases hcd : u.completedDays with
          | none =>
            have he : (applyHabitUpdates x u).completedDays = x.completedDays := by
              simp [applyHabitUpdates, hcd]
            rw [he]
            exact hs x hx
          | some l =>
            have he : (applyHabitUpdates x u).completedDays = l := by
              simp [applyHabitUpdates, hcd]
            rw [he]
            exact hu l hcd
  · intro user id ok s hs
    cases user with
    | none => exact hs
    | some uid =>
      cases ok with
      | false => exact hs
      | true =>
        intro h hm
        exact hs h (List.mem_of_mem_filter hm)
  · intro user hid d ok s hids hs
    cases user with
    | none => exact hs
    | some uid =>
      cases hf : s.habits.find? (fun h => h.id == hid) with
      | none =>
        have he : (UseHabitsDb.toggleHabitDay (some uid) hid d ok s).fst = s := by
          simp [UseHabitsDb.toggleHabitDay, hf]
        rw [he]
        exact hs
      | some habit =>
        cases ok with
        | false =>
          have he : (UseHabitsDb.toggleHabitDay (some uid) hid d false s).fst
              = s := by
            simp [UseHabitsDb.toggleHabitDay, hf]
          rw [he]
          exact hs
        | true =>
          have hmemh := List.mem_of_find?_eq_some hf
          have hidh : habit.id = hid := by simpa using List.find?_some hf
          rw [toggleDb_found hf]
          intro h hm
          obtain ⟨x, hx, rfl⟩ := List.mem_map.mp hm
          cases haq : x.id == hid with
          | false =>
            simp only [haq, Bool.false_eq_true, if_false]
            exact hs x hx
          | true =>
            have hxh : x = habit :=
              habit_eq_of_id_eq hids hx hmemh
                (by rw [beq_iff_eq.mp haq, hidh])
            subst hxh
            simp only [haq, if_true]
            cases hc : x.completedDays.contains d with
            | true =>
              simp only [hc, if_true]
              show (x.completedDays.filter (fun y => y != d)).Nodup
              exact (hs x hx).filter _
            | false =>
              simp only [hc, Bool.false_eq_true, if_false]
              show (x.completedDays ++ [d]).Nodup
              rw [List.nodup_append]
              refine ⟨hs x hx, List.nodup_singleton d, ?_⟩
              intro a ha hb
              rw [List.mem_singleton.mp hb] at ha
              exact (not_mem_of_contains_false hc) ha
  
/-- Claim C1 (witness for the amended claim, toggling a fresh date on a
one-habit state). -/
theorem c1_witness :
    completedNodup (UseHabitsDb.toggleHabitDay (some "u") "h1" "2024-01-02" true
      { emptyHook with
        habits := [{ id := "h1", name := "n", color := "c", createdAt := 0,
                     completedDays := ["2024-01-01"] }] }).fst :=
  c1_invariant.2.2.2.2 (some "u") "h1" "2024-01-02" true _
    (by unfold habitIdsNodup; decide) (by unfold completedNodup; decide)
